import Mathlib

/-!
# Verification of the chronos tabular conversion engine

Shallow embedding of `internal/converter/converter.go`: the time formatter
(`DecimalToTime`), the value classifier (`IsDecimalHour`), the column
detector (`AutoDetectColumns`), the header locator (`findHeaderRow`) and the
two conversion strategies of `ConvertCSV` / `ConvertXLSX`.

Machine floats of the Go source are modelled by exact rationals (ℚ);
`strconv.ParseFloat` is modelled on decimal literals (optional sign, digits
with optional fraction, optional decimal exponent, whole string consumed).
The hexadecimal, underscore-separated and inf/nan forms Go additionally
accepts are outside the model's scope, as is non-ASCII Unicode whitespace in
`strings.TrimSpace` (modelled over ASCII whitespace).
-/

namespace Chronos

/-! ## Character and string helpers -/

/-- ASCII whitespace, as trimmed by `strings.TrimSpace` (ASCII fragment). -/
def isSpaceCh (c : Char) : Bool :=
  c = ' ' || c = '\t' || c = '\n' || c = '\r' || c = '\x0b' || c = '\x0c'

/-- Trim whitespace from both ends of a character list. -/
def trimChars (cs : List Char) : List Char :=
  ((cs.dropWhile isSpaceCh).reverse.dropWhile isSpaceCh).reverse

/-- Model of Go `strings.TrimSpace` (ASCII whitespace fragment). -/
def trimS (s : String) : String := ⟨trimChars s.data⟩

def isDigitCh (c : Char) : Bool := '0' ≤ c && c ≤ '9'

def digitVal (c : Char) : ℕ := c.toNat - 48

/-- Maximal leading run of decimal digits, and the remainder. -/
def spanDigits : List Char → List Char × List Char
  | [] => ([], [])
  | c :: cs =>
    if isDigitCh c then
      let p := spanDigits cs
      (c :: p.1, p.2)
    else ([], c :: cs)

/-- Value of a digit string read in base 10. -/
def digitsVal (ds : List Char) : ℕ := ds.foldl (fun a c => 10 * a + digitVal c) 0

/-- Strip an optional leading sign; `true` means negative. -/
def splitSign (cs : List Char) : Bool × List Char :=
  match cs with
  | [] => (false, [])
  | c :: r => if c = '-' then (true, r) else if c = '+' then (false, r) else (false, c :: r)

def applySign (neg : Bool) (q : ℚ) : ℚ := if neg then -q else q

def applySignInt (neg : Bool) (n : ℕ) : ℤ := if neg then -(n : ℤ) else n

def pow10 (e : ℤ) : ℚ :=
  if 0 ≤ e then ((10 : ℚ) ^ e.toNat) else 1 / (10 : ℚ) ^ (-e).toNat

/-- Exponent part after `e`/`E`: optional sign then at least one digit,
consuming the whole remainder. -/
def parseExpChars (cs : List Char) : Option ℤ :=
  let p := splitSign cs
  let d := spanDigits p.2
  if d.1 = [] ∨ d.2 ≠ [] then none
  else some (applySignInt p.1 (digitsVal d.1))

/-- Exact value of `ip . fp` as a rational. -/
def mantissaVal (ip fp : List Char) : ℚ :=
  (digitsVal ip : ℚ) + (digitsVal fp : ℚ) / (10 : ℚ) ^ fp.length

/-- Finish a float parse: at least one digit in `ip ++ fp`, then an optional
exponent, then nothing. -/
def finishParse (neg : Bool) (ip fp rest : List Char) : Option ℚ :=
  if ip = [] ∧ fp = [] then none
  else
    match rest with
    | [] => some (applySign neg (mantissaVal ip fp))
    | c :: r =>
      if c = 'e' ∨ c = 'E' then
        (parseExpChars r).map fun e => applySign neg (mantissaVal ip fp * pow10 e)
      else none

/-- After the integer digits: an optional `.` with fraction digits, then the
finish. -/
def parseAfterInt (neg : Bool) (ip rest : List Char) : Option ℚ :=
  match rest with
  | [] => finishParse neg ip [] []
  | c :: cs3 =>
    if c = '.' then finishParse neg ip (spanDigits cs3).1 (spanDigits cs3).2
    else finishParse neg ip [] (c :: cs3)

def parseAfterSign (neg : Bool) (cs : List Char) : Option ℚ :=
  parseAfterInt neg (spanDigits cs).1 (spanDigits cs).2

/-- Model of `strconv.ParseFloat` on decimal literals: the result is `some v`
exactly when the whole input is a well-formed decimal float literal. -/
def parseFloatChars (cs : List Char) : Option ℚ :=
  parseAfterSign (splitSign cs).1 (splitSign cs).2

def parseFloat (s : String) : Option ℚ := parseFloatChars s.data

/-! ## Time Formatter (`DecimalToTime`, converter.go lines 19-35) -/

def digitChar (d : ℕ) : Char := Char.ofNat (48 + d % 10)

/-- Decimal digits of `n`, most significant first (Go `%d` on a natural). -/
def natRepr (n : ℕ) : List Char :=
  if _h : n < 10 then [digitChar n]
  else natRepr (n / 10) ++ [digitChar (n % 10)]
decreasing_by exact Nat.div_lt_self (by omega) (by omega)

/-- Zero-pad to width two (Go `%02d` on a natural). -/
def pad2 (cs : List Char) : List Char :=
  if cs.length < 2 then List.replicate (2 - cs.length) '0' ++ cs else cs

/-- `fmt.Sprintf "%02d:%02d"` on naturals. -/
def timeFmt (h m : ℕ) : String :=
  ⟨pad2 (natRepr h) ++ ':' :: pad2 (natRepr m)⟩

/-- `hours := int(decimal)` of `DecimalToTime` (converter.go line 24); Go's
`int(x)` truncates toward zero, which on the non-negative branch where it is
used is the floor. -/
def dtHours (decimal : ℚ) : ℕ := (⌊decimal⌋).toNat

/-- `minutes := int(minutesDecimal + 0.5)` of `DecimalToTime` (converter.go
lines 25-26); `minutesDecimal ≥ 0` there, so truncation is the floor. -/
def dtMinutes (decimal : ℚ) : ℕ :=
  (⌊(decimal - (dtHours decimal : ℚ)) * 60 + 1/2⌋).toNat

/-- `DecimalToTime` of converter.go (lines 19-35): decimal hours to `HH:MM`,
with the carry when rounding the minutes reaches 60. -/
def DecimalToTime (decimal : ℚ) : String :=
  if decimal < 0 then "00:00"
  else if 60 ≤ dtMinutes decimal then timeFmt (dtHours decimal + 1) (dtMinutes decimal - 60)
  else timeFmt (dtHours decimal) (dtMinutes decimal)

/-! ## Value Classifier (`IsDecimalHour`, converter.go lines 38-50) -/

def IsDecimalHour (s : String) : Bool :=
  let t := trimS s
  if t = "" then false
  else
    match parseFloatChars t.data with
    | none => false
    | some v => decide (0 ≤ v) && decide (v < 10000)

/-! ## Column Detector (`AutoDetectColumns`, converter.go lines 53-80) -/

/-- The `RowDetectionLimit` constant of converter.go (line 16). -/
def RowDetectionLimit : ℕ := 10

/-- `types.FileData`. -/
structure FileData where
  Headers : List String
  Rows : List (List String)

/-- Inner loop of `AutoDetectColumns` for column `i` over the sampled rows
(converter.go 61-72): `checked` accumulates `checkedRows`; the first failing
non-empty cell stops the scan (`break`).  Returns
`(hasDecimalHours, checkedRows)`. -/
def scanColumn (i : ℕ) (checked : ℕ) : List (List String) → Bool × ℕ
  | [] => (true, checked)
  | row :: rest =>
    match row[i]? with
    | none => scanColumn i checked rest
    | some cell =>
      let val := trimS cell
      if val = "" then scanColumn i checked rest
      else if ¬ IsDecimalHour val then (false, checked)
      else scanColumn i (checked + 1) rest

/-- `AutoDetectColumns` (converter.go 53-80): the loop over `i` appending the
passing indices in order is the filter of `0..len(Headers)`. -/
def AutoDetectColumns (data : FileData) : List ℕ :=
  (List.range data.Headers.length).filter fun i =>
    let r := scanColumn i 0 (data.Rows.take RowDetectionLimit)
    r.1 && decide (0 < r.2)

/-! ## Header Locator (`findHeaderRow`, converter.go lines 415-448) -/

/-- `containsLetters` (converter.go 451-458): any ASCII alphabetic rune. -/
def containsLetters (s : String) : Bool :=
  s.data.any fun r => ('a' ≤ r && r ≤ 'z') || ('A' ≤ r && r ≤ 'Z')

/-- `nonEmptyCount` of one row (converter.go 429-438). -/
def rowNonEmptyCount (row : List String) : ℕ :=
  row.countP fun c => decide (trimS c ≠ "")

/-- `hasText` of one row (converter.go 429-438): some cell is non-empty after
trimming and contains a letter. -/
def rowHasText (row : List String) : Bool :=
  row.any fun c => decide (trimS c ≠ "") && containsLetters (trimS c)

/-- The loop of `findHeaderRow` (converter.go 425-445) with its two mutable
locals `maxNonEmpty` and `headerIdx`; `i` is the index of the next row. -/
def findHeaderRowAux : List (List String) → ℕ → ℕ → ℤ → ℤ
  | [], _, _, headerIdx => headerIdx
  | row :: rest, i, maxNonEmpty, headerIdx =>
    let n := rowNonEmptyCount row
    if 2 ≤ n ∧ rowHasText row = true ∧ maxNonEmpty < n then
      findHeaderRowAux rest (i + 1) n (i : ℤ)
    else
      findHeaderRowAux rest (i + 1) maxNonEmpty headerIdx

/-- `findHeaderRow` (converter.go 415-448): search the first
`RowDetectionLimit*2 = 20` rows; `-1` means not found. -/
def findHeaderRow (rows : List (List String)) : ℤ :=
  findHeaderRowAux (rows.take (RowDetectionLimit * 2)) 0 0 (-1)

/-! ## Conversion Engine: shared parts (converter.go 101-110, 225-234) -/

/-- `types.ConversionResult`. -/
structure ConversionResult where
  InputFile : String
  OutputFile : String
  ColumnsFound : List String
  RowsProcessed : ℕ

/-- The valid caller-supplied indices, `idx >= 0 && idx < len(headers)`
(converter.go 105-110), in caller order with duplicates kept. -/
def validIndices (columnIndices : List ℤ) (headers : List String) : List ℤ :=
  columnIndices.filter fun idx => decide (0 ≤ idx) && decide (idx < headers.length)

/-- The `colMap` set built from the caller's indices: insertion into the map
is idempotent, so only membership matters. -/
def colMapOf (columnIndices : List ℤ) (headers : List String) : ℕ → Bool :=
  fun c => decide ((c : ℤ) ∈ validIndices columnIndices headers)

/-- `convertedCols`: the header labels appended once per valid caller index,
in caller order. -/
def convertedColsOf (columnIndices : List ℤ) (headers : List String) : List String :=
  (validIndices columnIndices headers).map fun idx => headers.getD idx.toNat ""

/-! ## `ConvertCSV` (converter.go lines 83-199) -/

/-- Companion cell of a data cell in insert-alongside mode (converter.go
137-145): empty when the cell is blank or does not parse. -/
def convertedCell (cell : String) : String :=
  if trimS cell = "" then ""
  else
    match parseFloat (trimS cell) with
    | some decimal => DecimalToTime decimal
    | none => ""

/-- One row of the insert-alongside rebuild (converter.go 128-148): walk the
cells left to right, inserting a companion cell after each selected column. -/
def keepRow (colMap : ℕ → Bool) (isHeader : Bool) : ℕ → List String → List String
  | _, [] => []
  | colIdx, cell :: rest =>
    if colMap colIdx then
      if isHeader then cell :: (cell ++ " (HH:MM)") :: keepRow colMap isHeader (colIdx + 1) rest
      else cell :: convertedCell cell :: keepRow colMap isHeader (colIdx + 1) rest
    else cell :: keepRow colMap isHeader (colIdx + 1) rest

/-- Declarative form of the insert-alongside row rebuild, following the
spec's words: every cell is kept and, when its column is selected, is
immediately followed by one new cell — the suffixed label on the header row,
the companion value on a data row. -/
def widenRow (colMap : ℕ → Bool) (isHeader : Bool) (record : List String) : List String :=
  (List.zipWith (fun j cell =>
      if colMap j then
        [cell, if isHeader then cell ++ " (HH:MM)" else convertedCell cell]
      else [cell])
    (List.range record.length) record).flatten

/-- Replace-in-place update of one selected cell (converter.go 165-170):
overwrite only when the trimmed cell is non-empty and parses. -/
def replaceCell (cell : String) : String :=
  if trimS cell ≠ "" then
    match parseFloat (trimS cell) with
    | some decimal => DecimalToTime decimal
    | none => cell
  else cell

/-- Replace-in-place update of one data row, walking the cells with their
column index (converter.go 163-172): the loop over `colMap`'s keys touches
each selected in-range cell independently, so walking the row cell by cell is
the same update. -/
def replaceRowAux (colMap : ℕ → Bool) : ℕ → List String → List String
  | _, [] => []
  | colIdx, cell :: rest =>
    (if colMap colIdx then replaceCell cell else cell) :: replaceRowAux colMap (colIdx + 1) rest

def replaceRow (colMap : ℕ → Bool) (record : List String) : List String :=
  replaceRowAux colMap 0 record

/-- The record transformation of `ConvertCSV` (converter.go 112-174): in
insert-alongside mode every record is rebuilt (the first is the header row,
`i == 0`); in replace-in-place mode rows from index 1 on are updated. -/
def convertRecords (records : List (List String)) (colMap : ℕ → Bool)
    (keepOriginal : Bool) : List (List String) :=
  match records with
  | [] => []
  | first :: rest =>
    if keepOriginal then
      keepRow colMap true 0 first :: rest.map (keepRow colMap false 0)
    else
      first :: rest.map (replaceRow colMap)

/-- Pure core of `ConvertCSV` (converter.go 97-198), after the input has been
read into `records` and before the output write; `none` is the
"empty CSV file" error.  `RowsProcessed` is `len(records) - 1` computed on
the transformed records (line 177). -/
def ConvertCSVPure (inputFile outputFile : String) (records : List (List String))
    (columnIndices : List ℤ) (keepOriginal : Bool) :
    Option (ConversionResult × List (List String)) :=
  match records with
  | [] => none
  | headers :: _ =>
    let colMap := colMapOf columnIndices headers
    let out := convertRecords records colMap keepOriginal
    some ({ InputFile := inputFile, OutputFile := outputFile,
            ColumnsFound := convertedColsOf columnIndices headers,
            RowsProcessed := out.length - 1 }, out)

/-! ## `ConvertXLSX` (converter.go lines 202-343) over a grid model -/

/-- Workbook sheet state: 1-based (row, column) to cell text; a missing cell
reads as `""`, as `GetCellValue` returns. -/
def Grid := ℕ → ℕ → String

/-- The sheet as read from `f.GetRows`. -/
def gridOfRows (rows : List (List String)) : Grid :=
  fun r c => (rows.getD (r - 1) []).getD (c - 1) ""

/-- `SetCellValue`. -/
def setCell (g : Grid) (r0 c0 : ℕ) (v : String) : Grid :=
  fun r c => if r = r0 ∧ c = c0 then v else g r c

/-- `InsertCols` of one column at 1-based position `p`: the new column is
empty and columns at or right of `p` shift right. -/
def insertCol (g : Grid) (p : ℕ) : Grid :=
  fun r c => if c < p then g r c else if c = p then "" else g r (c - 1)

/-- A cell of sheet `g` at 1-based row `rc.1` and 0-based column index
`rc.2` converts successfully: read non-empty, and its trimmed text parses. -/
def xlsxCellSuccess (g : Grid) (rc : ℕ × ℕ) : Bool :=
  decide (g rc.1 (rc.2 + 1) ≠ "") && (parseFloat (trimS (g rc.1 (rc.2 + 1)))).isSome

/-- Number of (data row, selected column) cells of sheet `g` that convert
successfully. -/
def xlsxSuccessCount (g : Grid) (rowIdxs cols : List ℕ) : ℕ :=
  (rowIdxs.product cols).countP (xlsxCellSuccess g)

/-- One cell of the XLSX replace-in-place loop (converter.go 319-329);
`rc.1` is the 1-based sheet row, `rc.2` the 0-based column index. -/
def xlsxReplaceStep (hp : Grid × ℕ) (rc : ℕ × ℕ) : Grid × ℕ :=
  if hp.1 rc.1 (rc.2 + 1) ≠ "" then
    match parseFloat (trimS (hp.1 rc.1 (rc.2 + 1))) with
    | some decimal => (setCell hp.1 rc.1 (rc.2 + 1) (DecimalToTime decimal), hp.2 + 1)
    | none => hp
  else hp

/-- Replace branch of `ConvertXLSX` (converter.go 312-331): rows outside in,
selected columns inside (`colMap` iteration; the cells touched are pairwise
distinct, so the map's iteration order does not matter and the ascending
order is used). -/
def xlsxReplaceBranch (g : Grid) (rowIdxs : List ℕ) (cols : List ℕ) : Grid × ℕ :=
  rowIdxs.foldl (fun acc rowIdx => cols.foldl (fun a c => xlsxReplaceStep a (rowIdx, c)) acc)
    (g, 0)

/-- One companion cell of the insert-alongside loop (converter.go 288-309):
read the original cell at column `colIdx + 1`, and on success write the
formatted value beside it at column `colIdx + 2`. -/
def xlsxInsertCellStep (colIdx : ℕ) (a : Grid × ℕ) (rowIdx : ℕ) : Grid × ℕ :=
  if a.1 rowIdx (colIdx + 1) ≠ "" then
    match parseFloat (trimS (a.1 rowIdx (colIdx + 1))) with
    | some decimal => (setCell a.1 rowIdx (colIdx + 2) (DecimalToTime decimal), a.2 + 1)
    | none => a
  else a

/-- Insert-alongside processing of one selected column (converter.go
267-310): insert the new column at `colIdx + 2`, set its header, then fill
the companion cells top to bottom. -/
def xlsxInsertColStep (hdrIdx : ℕ) (headers : List String) (rowIdxs : List ℕ)
    (hp : Grid × ℕ) (colIdx : ℕ) : Grid × ℕ :=
  rowIdxs.foldl (xlsxInsertCellStep colIdx)
    (setCell (insertCol hp.1 (colIdx + 2)) (hdrIdx + 1) (colIdx + 2)
      (headers.getD colIdx "" ++ " (HH:MM)"), hp.2)

/-- Insert branch of `ConvertXLSX` (converter.go 252-311): selected columns
processed right to left. -/
def xlsxInsertBranch (g : Grid) (hdrIdx : ℕ) (headers : List String) (rowIdxs : List ℕ)
    (colsDesc : List ℕ) : Grid × ℕ :=
  colsDesc.foldl (xlsxInsertColStep hdrIdx headers rowIdxs) (g, 0)

/-- `ConvertXLSX` (converter.go 202-343) with the workbook as a `Grid`;
`rows` is `f.GetRows` of the first sheet.  `none` covers the
"empty XLSX file" and "could not find header row" errors, both raised before
any cell is written or the output saved. -/
def ConvertXLSXPure (inputFile outputFile : String) (rows : List (List String))
    (columnIndices : List ℤ) (keepOriginal : Bool) :
    Option (ConversionResult × Grid) :=
  match rows with
  | [] => none
  | _ :: _ =>
    let hIdx := findHeaderRow rows
    if hIdx = -1 then none
    else
      let hdrIdx := hIdx.toNat
      let headers := rows.getD hdrIdx []
      let colMap := colMapOf columnIndices headers
      let rowIdxs := List.range' (hdrIdx + 2) (rows.length - (hdrIdx + 1))
      let res :=
        if keepOriginal then
          xlsxInsertBranch (gridOfRows rows) hdrIdx headers rowIdxs
            (((List.range headers.length).filter colMap).reverse)
        else
          xlsxReplaceBranch (gridOfRows rows) rowIdxs
            ((List.range headers.length).filter colMap)
      some ({ InputFile := inputFile, OutputFile := outputFile,
              ColumnsFound := convertedColsOf columnIndices headers,
              RowsProcessed := res.2 }, res.1)

/-! ## File-trace model for the write discipline (converter.go 83-198) -/

/-- State of the output path after a conversion attempt. -/
inductive FsOutcome
  | noFile
  | partialFile (content : List (List String))
  | fullFile (content : List (List String))
deriving DecidableEq

/-- I/O trace of `ConvertCSV` (converter.go 83-198).  `input = none` models a
failing read of the input (lines 85-95); the transformed records are built
fully in memory (lines 112-177) before `os.Create` opens the output (line
180); `writeFailAfter = some k` models an I/O failure during
`writer.WriteAll` after `k` records have reached the already-created output
file (lines 186-191). -/
def ConvertCSVTrace (inputFile outputFile : String) (input : Option (List (List String)))
    (columnIndices : List ℤ) (keepOriginal : Bool) (writeFailAfter : Option ℕ) :
    Option ConversionResult × FsOutcome :=
  match input with
  | none => (none, FsOutcome.noFile)
  | some records =>
    match ConvertCSVPure inputFile outputFile records columnIndices keepOriginal with
    | none => (none, FsOutcome.noFile)
    | some (result, out) =>
      match writeFailAfter with
      | some k =>
        if k < out.length then (none, FsOutcome.partialFile (out.take k))
        else (some result, FsOutcome.fullFile out)
      | none => (some result, FsOutcome.fullFile out)

/-- `ReadFileData` (converter.go 346-357) as a trace: dispatch on the
lower-cased extension; an unsupported extension fails, and no branch of the
reader creates an output file. -/
def ReadFileDataTrace (ext : String) (readOk : Option FileData) :
    Option FileData × FsOutcome :=
  if ext = ".csv" || ext = ".xlsx" then (readOk, FsOutcome.noFile)
  else (none, FsOutcome.noFile)

/-! ## Sanity examples -/

example : DecimalToTime 0 = "00:00" := by with_unfolding_all rfl
example : DecimalToTime (3/2) = "01:30" := by with_unfolding_all rfl
example : DecimalToTime (2469/20) = "123:27" := by with_unfolding_all rfl
example : DecimalToTime (-(3/2)) = "00:00" := by with_unfolding_all rfl
example : IsDecimalHour "1.5" = true := by with_unfolding_all rfl
example : IsDecimalHour " 1.5 " = true := by with_unfolding_all rfl
example : IsDecimalHour "1.5h" = false := by with_unfolding_all rfl
example : IsDecimalHour "-1" = false := by with_unfolding_all rfl
example : IsDecimalHour "10000" = false := by with_unfolding_all rfl
example : IsDecimalHour "" = false := by with_unfolding_all rfl
example : IsDecimalHour "   " = false := by with_unfolding_all rfl
example : parseFloat "2.0" = some 2 := by with_unfolding_all rfl
example : parseFloat "1e2" = some 100 := by with_unfolding_all rfl
example : parseFloat "1.5e-1" = some (3/20) := by with_unfolding_all rfl

example :
    (ConvertCSVPure "in" "out" [["Name", "Hours"], ["Alice", "1.5"], ["Bob", "2.0"]] [1]
        true).map (fun p => p.2) =
      some [["Name", "Hours", "Hours (HH:MM)"], ["Alice", "1.5", "01:30"], ["Bob", "2.0", "02:00"]] := by
  with_unfolding_all rfl

example :
    (ConvertCSVPure "in" "out" [["Name", "Hours"], ["Alice", "1.5"], ["Bob", "2.0"]] [1]
        false).map (fun p => p.2) =
      some [["Name", "Hours"], ["Alice", "01:30"], ["Bob", "02:00"]] := by
  with_unfolding_all rfl

example :
    (ConvertCSVPure "in" "out" [["Name", "Hours"], ["Alice", "1.5"], ["Bob", "2.0"]] [1]
        false).map (fun p => p.1.ColumnsFound) = some [["Hours"]].flatten := by
  with_unfolding_all rfl

example :
    AutoDetectColumns ⟨["Name", "Hours"], [["Alice", "8.0"], ["Bob", "7.5"]]⟩ = [1] := by
  with_unfolding_all rfl

example :
    AutoDetectColumns ⟨["Hours"], [[""], ["8.0"]]⟩ = [0] := by
  with_unfolding_all rfl

example :
    AutoDetectColumns ⟨["Mixed"], [["8.0"], ["7.5"], ["Invalid"]]⟩ = [] := by
  with_unfolding_all rfl

example : findHeaderRow [["123"], ["Name", "Hours"]] = 1 := by with_unfolding_all rfl

example : findHeaderRow [["123", "456"]] = -1 := by with_unfolding_all rfl

example :
    (ConvertXLSXPure "in" "out" [["Name", "Hours"], ["Alice", "1.5"], ["Bob", "x"]] [1]
        false).map (fun p => p.1.RowsProcessed) = some 1 := by
  with_unfolding_all rfl

example :
    (ConvertXLSXPure "in" "out" [["Name", "Hours"], ["Alice", "1.5"], ["Bob", "x"]] [1]
        true).map (fun p => p.1.RowsProcessed) = some 1 := by
  with_unfolding_all rfl

/-! ## Supporting lemmas -/

theorem IsDecimalHour_eq_true_iff (s : String) :
    IsDecimalHour s = true ↔
      trimS s ≠ "" ∧ ∃ v : ℚ, parseFloat (trimS s) = some v ∧ 0 ≤ v ∧ v < 10000 := by
  simp only [IsDecimalHour, parseFloat]
  by_cases h : trimS s = ""
  · simp [h]
  · rw [if_neg h]
    cases hp : parseFloatChars (trimS s).data with
    | none => simp [hp, h]
    | some v =>
      simp only [hp, h, Bool.and_eq_true, decide_eq_true_eq, ne_eq, not_false_iff, true_and]
      constructor
      · rintro ⟨h1, h2⟩; exact ⟨v, rfl, h1, h2⟩
      · rintro ⟨w, hw, h1, h2⟩; cases hw; exact ⟨h1, h2⟩

theorem DecimalToTime_neg (v : ℚ) (hv : v < 0) : DecimalToTime v = "00:00" := by
  rw [DecimalToTime, if_pos hv]

/-- On non-negative input the formatter renders `T / 60 : T % 60` where
`T = ⌊60v + 1/2⌋` is the round-half-up total minute count: the separate
hour/minute computation with its carry at 60 is this division. -/
theorem DecimalToTime_nonneg (v : ℚ) (hv : 0 ≤ v) :
    DecimalToTime v =
      timeFmt ((⌊60 * v + 1/2⌋).toNat / 60) ((⌊60 * v + 1/2⌋).toNat % 60) := by
  have hnl : ¬ v < 0 := not_lt.mpr hv
  have hfl : (0:ℤ) ≤ ⌊v⌋ := Int.floor_nonneg.mpr hv
  have hHv : ((dtHours v : ℕ) : ℚ) = ((⌊v⌋ : ℤ) : ℚ) := by
    unfold dtHours; exact_mod_cast Int.toNat_of_nonneg hfl
  have hfrac0 : (0:ℚ) ≤ v - (dtHours v : ℚ) := by
    rw [hHv]; linarith [Int.floor_le v]
  have hfrac1 : v - (dtHours v : ℚ) < 1 := by
    rw [hHv]; linarith [Int.lt_floor_add_one v]
  have hm0 : (0:ℤ) ≤ ⌊(v - (dtHours v : ℚ)) * 60 + 1/2⌋ :=
    Int.floor_nonneg.mpr (by linarith)
  have hm61 : ⌊(v - (dtHours v : ℚ)) * 60 + 1/2⌋ ≤ 60 := by
    have h1 : ((⌊(v - (dtHours v : ℚ)) * 60 + 1/2⌋ : ℤ) : ℚ) ≤ (v - (dtHours v : ℚ)) * 60 + 1/2 :=
      Int.floor_le _
    have h2 : (v - (dtHours v : ℚ)) * 60 + 1/2 < 61 := by nlinarith
    have h3 : ((⌊(v - (dtHours v : ℚ)) * 60 + 1/2⌋ : ℤ) : ℚ) < 61 := lt_of_le_of_lt h1 h2
    have h4 : ⌊(v - (dtHours v : ℚ)) * 60 + 1/2⌋ < (61:ℤ) := by exact_mod_cast h3
    omega
  have hT : ⌊60 * v + 1/2⌋ = 60 * ⌊v⌋ + ⌊(v - (dtHours v : ℚ)) * 60 + 1/2⌋ := by
    have heq : 60 * v + 1/2 = ((v - (dtHours v : ℚ)) * 60 + 1/2) + ((60 * ⌊v⌋ : ℤ) : ℚ) := by
      rw [sub_eq_add_neg, hHv]; push_cast; ring
    rw [heq, Int.floor_add_int]; omega
  have hHdef : dtHours v = (⌊v⌋).toNat := rfl
  rw [DecimalToTime, if_neg hnl]
  by_cases hc : 60 ≤ dtMinutes v
  · rw [if_pos hc]
    have e1 : dtHours v + 1 = (⌊60 * v + 1/2⌋).toNat / 60 := by
      unfold dtMinutes at hc; omega
    have e2 : dtMinutes v - 60 = (⌊60 * v + 1/2⌋).toNat % 60 := by
      unfold dtMinutes at hc ⊢; omega
    rw [e1, e2]
  · rw [if_neg hc]
    have e1 : dtHours v = (⌊60 * v + 1/2⌋).toNat / 60 := by
      unfold dtMinutes at hc; omega
    have e2 : dtMinutes v = (⌊60 * v + 1/2⌋).toNat % 60 := by
      unfold dtMinutes at hc ⊢; omega
    rw [e1, e2]

/-! ## Claim theorems -/

/-- C9: `IsDecimalHour s` is true iff the whitespace-trimmed token is
non-empty, parses entirely as a number, and the value `v` satisfies
`0 ≤ v < 10000`; concretely it is false for `""`, whitespace-only,
non-numeric strings, negative numbers, values `≥ 10000` and `"1.5h"`, and
true for `"0"` and `"1.5"`. -/
theorem C9_IsDecimalHour_spec (s : String) :
    (IsDecimalHour s = true ↔
      trimS s ≠ "" ∧ ∃ v : ℚ, parseFloat (trimS s) = some v ∧ 0 ≤ v ∧ v < 10000) ∧
    IsDecimalHour "" = false ∧ IsDecimalHour "   " = false ∧
    IsDecimalHour "abc" = false ∧ IsDecimalHour "-1" = false ∧
    IsDecimalHour "10000" = false ∧ IsDecimalHour "1.5h" = false ∧
    IsDecimalHour "0" = true ∧ IsDecimalHour "1.5" = true := by
  refine ⟨IsDecimalHour_eq_true_iff s, ?_, ?_, ?_, ?_, ?_, ?_, ?_, ?_⟩ <;> with_unfolding_all rfl

/-- C2: `DecimalToTime` is total; negative input is clamped to `"00:00"`;
for `0 ≤ v` the output is `timeFmt` of hours `T / 60` and minutes `T % 60`
where `T = ⌊60v + 0.5⌋` is the round-half-up minute total — equivalently the
hour is the integer part of `v`, the minutes are the fractional part times
60 rounded by add-0.5-then-truncate, and a minute value of 60 carries into
the hour; hours are not capped (`123.45` renders as `"123:27"`). -/
theorem C2_DecimalToTime_spec (v : ℚ) :
    (v < 0 → DecimalToTime v = "00:00") ∧
    (0 ≤ v → DecimalToTime v =
      timeFmt ((⌊60 * v + 1/2⌋).toNat / 60) ((⌊60 * v + 1/2⌋).toNat % 60)) ∧
    DecimalToTime (12345/100 : ℚ) = "123:27" := by
  exact ⟨DecimalToTime_neg v, DecimalToTime_nonneg v, by with_unfolding_all rfl⟩

/-- Witness for C2 at concrete inputs `-3/2` and `3/2`. -/
theorem C2_DecimalToTime_spec_witness :
    DecimalToTime (-(3/2) : ℚ) = "00:00" ∧
      DecimalToTime (3/2 : ℚ) = timeFmt ((⌊60 * (3/2 : ℚ) + 1/2⌋).toNat / 60)
        ((⌊60 * (3/2 : ℚ) + 1/2⌋).toNat % 60) :=
  ⟨(C2_DecimalToTime_spec (-(3/2) : ℚ)).1 (by norm_num),
   (C2_DecimalToTime_spec (3/2 : ℚ)).2.1 (by norm_num)⟩

theorem digitChar_digit (d : ℕ) : isDigitCh (digitChar d) = true := by
  have h : d % 10 < 10 := Nat.mod_lt _ (by omega)
  unfold digitChar
  revert h
  generalize d % 10 = k
  intro h
  interval_cases k <;> decide

theorem natRepr_digits (n : ℕ) : ∀ c ∈ natRepr n, isDigitCh c = true := by
  induction n using Nat.strong_induction_on with
  | _ n ih =>
    rw [natRepr]
    split
    · intro c hc
      rw [List.mem_singleton] at hc
      subst hc
      exact digitChar_digit n
    · intro c hc
      rcases List.mem_append.mp hc with h1 | h1
      · exact ih (n / 10) (Nat.div_lt_self (by omega) (by omega)) c h1
      · rw [List.mem_singleton] at h1
        subst h1
        exact digitChar_digit _

theorem pad2_digits (cs : List Char) (h : ∀ c ∈ cs, isDigitCh c = true) :
    ∀ c ∈ pad2 cs, isDigitCh c = true := by
  unfold pad2
  split
  · intro c hc
    rcases List.mem_append.mp hc with h1 | h1
    · rw [List.eq_of_mem_replicate h1]; decide
    · exact h c h1
  · exact h

theorem pad2_ne_nil (cs : List Char) : pad2 cs ≠ [] := by
  unfold pad2
  split
  · rename_i hlen
    intro hc
    rcases List.append_eq_nil.mp hc with ⟨h1, h2⟩
    rw [h2] at h1
    simp at h1
  · rename_i hlen
    intro hc
    rw [hc] at hlen
    simp at hlen

theorem splitSign_eq_self (cs : List Char)
    (h : ∀ c r', cs = c :: r' → isDigitCh c = true) :
    splitSign cs = (false, cs) := by
  cases cs with
  | nil => rfl
  | cons c r =>
    have hc := h c r rfl
    have h1 : c ≠ '-' := by rintro rfl; exact absurd hc (by decide)
    have h2 : c ≠ '+' := by rintro rfl; exact absurd hc (by decide)
    simp [splitSign, h1, h2]

theorem spanDigits_append_nondigit (ds rest : List Char)
    (hds : ∀ c ∈ ds, isDigitCh c = true)
    (hrest : ∀ c r', rest = c :: r' → isDigitCh c = false) :
    spanDigits (ds ++ rest) = (ds, rest) := by
  induction ds with
  | nil =>
    rw [List.nil_append]
    cases rest with
    | nil => rfl
    | cons c r => simp [spanDigits, hrest c r rfl]
  | cons c ds ih =>
    rw [List.cons_append]
    simp only [spanDigits, hds c (List.mem_cons_self c ds), if_true]
    rw [ih fun x hx => hds x (List.mem_cons_of_mem _ hx)]

theorem parseFloatChars_digits_colon (hd tail : List Char) (hne : hd ≠ [])
    (hds : ∀ c ∈ hd, isDigitCh c = true) :
    parseFloatChars (hd ++ ':' :: tail) = none := by
  have hsign : splitSign (hd ++ ':' :: tail) = (false, hd ++ ':' :: tail) := by
    apply splitSign_eq_self
    intro c r' hEq
    cases hd with
    | nil => exact absurd rfl hne
    | cons a t =>
      rw [List.cons_append] at hEq
      injection hEq with h1 _
      subst h1
      exact hds a (List.mem_cons_self a t)
  have hspan : spanDigits (hd ++ ':' :: tail) = (hd, ':' :: tail) := by
    apply spanDigits_append_nondigit hd (':' :: tail) hds
    intro c r' hEq
    injection hEq with h1 _
    subst h1
    decide
  unfold parseFloatChars parseAfterSign
  rw [hsign]
  show parseAfterInt false (spanDigits (hd ++ ':' :: tail)).1
    (spanDigits (hd ++ ':' :: tail)).2 = none
  rw [hspan]
  show parseAfterInt false hd (':' :: tail) = none
  simp only [parseAfterInt]
  rw [if_neg (by decide : ¬(':' = '.'))]
  simp only [finishParse]
  rw [if_neg (by simp [hne])]
  rw [if_neg (by decide : ¬(':' = 'e' ∨ ':' = 'E'))]

theorem timeFmt_data (h m : ℕ) :
    (timeFmt h m).data = pad2 (natRepr h) ++ ':' :: pad2 (natRepr m) := rfl

theorem parseFloat_timeFmt (h m : ℕ) : parseFloat (timeFmt h m) = none := by
  unfold parseFloat
  rw [timeFmt_data]
  exact parseFloatChars_digits_colon _ _ (pad2_ne_nil _) (pad2_digits _ (natRepr_digits _))

theorem digit_not_space (c : Char) (hc : isDigitCh c = true) : isSpaceCh c = false := by
  have h1 : c ≠ ' ' := by rintro rfl; exact absurd hc (by decide)
  have h2 : c ≠ '\t' := by rintro rfl; exact absurd hc (by decide)
  have h3 : c ≠ '\n' := by rintro rfl; exact absurd hc (by decide)
  have h4 : c ≠ '\r' := by rintro rfl; exact absurd hc (by decide)
  have h5 : c ≠ '\x0b' := by rintro rfl; exact absurd hc (by decide)
  have h6 : c ≠ '\x0c' := by rintro rfl; exact absurd hc (by decide)
  simp [isSpaceCh, h1, h2, h3, h4, h5, h6]

theorem timeFmt_not_space (h m : ℕ) : ∀ c ∈ (timeFmt h m).data, isSpaceCh c = false := by
  rw [timeFmt_data]
  intro c hc
  rcases List.mem_append.mp hc with h1 | h1
  · exact digit_not_space c (pad2_digits _ (natRepr_digits _) c h1)
  · rcases List.mem_cons.mp h1 with h2 | h2
    · subst h2; decide
    · exact digit_not_space c (pad2_digits _ (natRepr_digits _) c h2)

theorem dropWhile_eq_self_of_all {p : Char → Bool} (cs : List Char)
    (h : ∀ c ∈ cs, p c = false) : cs.dropWhile p = cs := by
  cases cs with
  | nil => rfl
  | cons c t => simp [List.dropWhile_cons, h c (List.mem_cons_self c t)]

theorem trimChars_eq_self (cs : List Char) (h : ∀ c ∈ cs, isSpaceCh c = false) :
    trimChars cs = cs := by
  unfold trimChars
  rw [dropWhile_eq_self_of_all cs h]
  rw [dropWhile_eq_self_of_all _ fun c hc => h c (List.mem_reverse.mp hc)]
  exact List.reverse_reverse cs

theorem trimS_timeFmt (h m : ℕ) : trimS (timeFmt h m) = timeFmt h m := by
  unfold trimS
  rw [trimChars_eq_self _ (timeFmt_not_space h m)]

theorem timeFmt_ne_empty (h m : ℕ) : timeFmt h m ≠ "" := by
  intro hEq
  have hdata : (timeFmt h m).data = [] := by rw [hEq]
  rw [timeFmt_data] at hdata
  rcases List.append_eq_nil.mp hdata with ⟨h1, _⟩
  exact pad2_ne_nil _ h1

theorem DecimalToTime_eq_timeFmt (v : ℚ) : ∃ h m, DecimalToTime v = timeFmt h m := by
  by_cases h1 : v < 0
  · exact ⟨0, 0, by rw [DecimalToTime, if_pos h1]; with_unfolding_all rfl⟩
  · by_cases h2 : 60 ≤ dtMinutes v
    · exact ⟨_, _, by rw [DecimalToTime, if_neg h1, if_pos h2]⟩
    · exact ⟨_, _, by rw [DecimalToTime, if_neg h1, if_neg h2]⟩

theorem parseFloat_DecimalToTime (v : ℚ) : parseFloat (DecimalToTime v) = none := by
  obtain ⟨h, m, hEq⟩ := DecimalToTime_eq_timeFmt v
  rw [hEq]
  exact parseFloat_timeFmt h m

theorem trimS_DecimalToTime (v : ℚ) : trimS (DecimalToTime v) = DecimalToTime v := by
  obtain ⟨h, m, hEq⟩ := DecimalToTime_eq_timeFmt v
  rw [hEq]
  exact trimS_timeFmt h m

theorem DecimalToTime_ne_empty (v : ℚ) : DecimalToTime v ≠ "" := by
  obtain ⟨h, m, hEq⟩ := DecimalToTime_eq_timeFmt v
  rw [hEq]
  exact timeFmt_ne_empty h m

theorem IsDecimalHour_DecimalToTime (v : ℚ) : IsDecimalHour (DecimalToTime v) = false := by
  simp only [IsDecimalHour]
  rw [trimS_DecimalToTime, if_neg (DecimalToTime_ne_empty v)]
  rw [show parseFloatChars (DecimalToTime v).data = parseFloat (DecimalToTime v) from rfl]
  rw [parseFloat_DecimalToTime]

theorem replaceCell_DecimalToTime (v : ℚ) : replaceCell (DecimalToTime v) = DecimalToTime v := by
  unfold replaceCell
  rw [trimS_DecimalToTime, if_pos (DecimalToTime_ne_empty v)]
  rw [parseFloat_DecimalToTime]

theorem replaceRowAux_map_DecimalToTime (colMap : ℕ → Bool) (vs : List ℚ) :
    ∀ start, replaceRowAux colMap start (vs.map fun u => DecimalToTime u) =
      vs.map fun u => DecimalToTime u := by
  induction vs with
  | nil => intro start; rfl
  | cons u t ih =>
    intro start
    simp only [List.map_cons, replaceRowAux, ih]
    split
    · rw [replaceCell_DecimalToTime]
    · rfl

/-- C6: converted output never re-converts: for every `v` the rendered
`DecimalToTime v` contains a colon, fails `IsDecimalHour`, fails the float
parse that gates overwriting, and is left unchanged by the replace-in-place
cell update — so re-running a replace-in-place conversion over a column of
already-converted values changes nothing. -/
theorem C6_idempotence_guard (v : ℚ) (colMap : ℕ → Bool) (vs : List ℚ) :
    ':' ∈ (DecimalToTime v).data ∧
    parseFloat (trimS (DecimalToTime v)) = none ∧
    IsDecimalHour (DecimalToTime v) = false ∧
    replaceCell (DecimalToTime v) = DecimalToTime v ∧
    replaceRow colMap (vs.map fun u => DecimalToTime u) = vs.map fun u => DecimalToTime u := by
  refine ⟨?_, ?_, IsDecimalHour_DecimalToTime v, replaceCell_DecimalToTime v,
    replaceRowAux_map_DecimalToTime colMap vs 0⟩
  · obtain ⟨h, m, hEq⟩ := DecimalToTime_eq_timeFmt v
    rw [hEq, timeFmt_data]
    exact List.mem_append.mpr (Or.inr (List.mem_cons_self _ _))
  · rw [trimS_DecimalToTime]
    exact parseFloat_DecimalToTime v

theorem keepRow_eq_widen (colMap : ℕ → Bool) (isHeader : Bool) (record : List String) :
    ∀ start, keepRow colMap isHeader start record =
      (List.zipWith (fun j cell =>
          if colMap j then
            [cell, if isHeader then cell ++ " (HH:MM)" else convertedCell cell]
          else [cell])
        (List.range' start record.length) record).flatten := by
  induction record with
  | nil => intro start; rfl
  | cons cell rest ih =>
    intro start
    rw [List.length_cons, List.range'_succ, List.zipWith_cons_cons, List.flatten_cons, ← ih]
    simp only [keepRow]
    split
    · split <;> rfl
    · rfl

theorem keepRow_eq_widenRow (colMap : ℕ → Bool) (isHeader : Bool) :
    keepRow colMap isHeader 0 = widenRow colMap isHeader := by
  funext record
  rw [keepRow_eq_widen, widenRow, List.range_eq_range']

theorem replaceRowAux_get? (colMap : ℕ → Bool) (record : List String) :
    ∀ start j, (replaceRowAux colMap start record).get? j =
      (record.get? j).map fun cell => if colMap (start + j) then replaceCell cell else cell := by
  induction record with
  | nil => intro start j; rfl
  | cons cell rest ih =>
    intro start j
    cases j with
    | zero => simp [replaceRowAux]
    | succ j =>
      simp only [replaceRowAux, List.get?_cons_succ]
      rw [ih (start + 1) j]
      have harith : start + 1 + j = start + (j + 1) := by omega
      rw [harith]

theorem replaceRowAux_length (colMap : ℕ → Bool) (record : List String) :
    ∀ start, (replaceRowAux colMap start record).length = record.length := by
  induction record with
  | nil => intro start; rfl
  | cons cell rest ih =>
    intro start
    simp [replaceRowAux, ih]

theorem ConvertCSVPure_cons (inputFile outputFile : String) (headers : List String)
    (rest : List (List String)) (columnIndices : List ℤ) (keepOriginal : Bool) :
    ConvertCSVPure inputFile outputFile (headers :: rest) columnIndices keepOriginal =
      some ({ InputFile := inputFile, OutputFile := outputFile,
              ColumnsFound := convertedColsOf columnIndices headers,
              RowsProcessed :=
                (convertRecords (headers :: rest) (colMapOf columnIndices headers)
                  keepOriginal).length - 1 },
        convertRecords (headers :: rest) (colMapOf columnIndices headers) keepOriginal) := rfl

theorem convertRecords_keep (headers : List String) (rest : List (List String))
    (colMap : ℕ → Bool) :
    convertRecords (headers :: rest) colMap true =
      widenRow colMap true headers :: rest.map (widenRow colMap false) := by
  simp only [convertRecords, if_true]
  rw [keepRow_eq_widenRow, keepRow_eq_widenRow]

theorem convertRecords_replace (headers : List String) (rest : List (List String))
    (colMap : ℕ → Bool) :
    convertRecords (headers :: rest) colMap false =
      headers :: rest.map (replaceRow colMap) := by
  simp [convertRecords]

/-- C3: in insert-alongside mode every selected column gets a new header
labelled with the original label plus `" (HH:MM)"` appended immediately
after it, and every data row gets a new cell right after the original cell
— the formatted value when the cell parses, the empty string (not an omitted
cell) when it is blank or unparseable; on the spec's example table with
column 1 selected the output is exactly the widened table. -/
theorem C3_insert_alongside (inputFile outputFile : String) (headers : List String)
    (dataRows : List (List String)) (columnIndices : List ℤ) :
    (∃ result, ConvertCSVPure inputFile outputFile (headers :: dataRows) columnIndices true =
      some (result,
        widenRow (colMapOf columnIndices headers) true headers ::
          dataRows.map (widenRow (colMapOf columnIndices headers) false))) ∧
    (∀ cell, trimS cell = "" → convertedCell cell = "") ∧
    (∀ cell, parseFloat (trimS cell) = none → convertedCell cell = "") ∧
    (∀ cell r, parseFloat (trimS cell) = some r → trimS cell ≠ "" →
      convertedCell cell = DecimalToTime r) ∧
    (ConvertCSVPure "in" "out" [["Name", "Hours"], ["Alice", "1.5"], ["Bob", "2.0"]] [1]
        true).map (fun p => p.2) =
      some [["Name", "Hours", "Hours (HH:MM)"], ["Alice", "1.5", "01:30"],
        ["Bob", "2.0", "02:00"]] := by
  refine ⟨⟨{ InputFile := inputFile, OutputFile := outputFile,
             ColumnsFound := convertedColsOf columnIndices headers,
             RowsProcessed := (convertRecords (headers :: dataRows)
               (colMapOf columnIndices headers) true).length - 1 }, ?_⟩,
    ?_, ?_, ?_, by with_unfolding_all rfl⟩
  · rw [ConvertCSVPure_cons, convertRecords_keep]
  · intro cell h
    simp [convertedCell, h]
  · intro cell h
    unfold convertedCell
    split
    · rfl
    · rw [h]
  · intro cell r h hne
    unfold convertedCell
    rw [if_neg hne, h]

/-- C4: in replace-in-place mode the headers are returned unchanged and a
data cell is overwritten with the formatted value exactly when its column is
selected, its trimmed content is non-empty and it parses as a float; every
other cell — non-selected columns, blank cells, unparseable cells — is
returned verbatim, and row lengths are preserved. -/
theorem C4_replace_in_place_frame (inputFile outputFile : String) (headers : List String)
    (dataRows : List (List String)) (columnIndices : List ℤ) :
    ∃ result out,
      ConvertCSVPure inputFile outputFile (headers :: dataRows) columnIndices false =
        some (result, out) ∧
      out.head? = some headers ∧
      out.length = dataRows.length + 1 ∧
      (∀ i row, dataRows.get? i = some row →
        ∃ row', out.get? (i + 1) = some row' ∧ row'.length = row.length ∧
          ∀ j cell, row.get? j = some cell →
            row'.get? j = some (
              if colMapOf columnIndices headers j then
                (if trimS cell ≠ "" then
                  match parseFloat (trimS cell) with
                  | some d => DecimalToTime d
                  | none => cell
                 else cell)
              else cell)) ∧
      (ConvertCSVPure "in" "out" [["Name", "Hours"], ["Alice", "1.5"], ["Bob", "2.0"]] [1]
          false).map (fun p => p.2) =
        some [["Name", "Hours"], ["Alice", "01:30"], ["Bob", "02:00"]] := by
  refine ⟨{ InputFile := inputFile, OutputFile := outputFile,
            ColumnsFound := convertedColsOf columnIndices headers,
            RowsProcessed := (convertRecords (headers :: dataRows)
              (colMapOf columnIndices headers) false).length - 1 },
    headers :: dataRows.map (replaceRow (colMapOf columnIndices headers)),
    ?_, rfl, by simp, ?_, by with_unfolding_all rfl⟩
  · rw [ConvertCSVPure_cons, convertRecords_replace]
  · intro i row hrow
    refine ⟨replaceRow (colMapOf columnIndices headers) row, ?_,
      replaceRowAux_length _ row 0, ?_⟩
    · rw [List.get?_cons_succ, List.get?_map, hrow]
      rfl
    · intro j cell hcell
      rw [replaceRow, replaceRowAux_get? _ row 0 j, hcell]
      simp only [Nat.zero_add]
      rfl

theorem colMapOf_ext (cs1 cs2 : List ℤ) (headers : List String)
    (h : ∀ x : ℤ, x ∈ cs1 ↔ x ∈ cs2) : colMapOf cs1 headers = colMapOf cs2 headers := by
  funext c
  unfold colMapOf validIndices
  rw [Bool.eq_iff_iff]
  simp only [decide_eq_true_eq, List.mem_filter]
  rw [h (c : ℤ)]

/-- C10: when the caller-supplied `column_indices` repeats a valid index, the
cells are converted only once — the conversion output depends only on the
set of indices — while `ColumnsFound` gets the header label once per
occurrence and in caller order: `[1, 1]` on the example table yields
`ColumnsFound = ["Hours", "Hours"]` with the same records as `[1]`, and
`[1, 0]` yields `["Hours", "Name"]`, not ascending order. -/
theorem C10_duplicate_indices (records rows : List (List String)) (headers : List String)
    (cs1 cs2 : List ℤ) (keepOriginal : Bool) (inputFile outputFile : String)
    (h : ∀ x : ℤ, x ∈ cs1 ↔ x ∈ cs2) :
    convertRecords records (colMapOf cs1 headers) keepOriginal =
      convertRecords records (colMapOf cs2 headers) keepOriginal ∧
    (ConvertXLSXPure inputFile outputFile rows cs1 keepOriginal).map
        (fun p => (p.1.RowsProcessed, p.2)) =
      (ConvertXLSXPure inputFile outputFile rows cs2 keepOriginal).map
        (fun p => (p.1.RowsProcessed, p.2)) ∧
    (ConvertCSVPure "in" "out" [["Name", "Hours"], ["Alice", "1.5"], ["Bob", "2.0"]] [1, 1]
        true).map (fun p => p.1.ColumnsFound) = some ["Hours", "Hours"] ∧
    (ConvertCSVPure "in" "out" [["Name", "Hours"], ["Alice", "1.5"], ["Bob", "2.0"]] [1, 1]
        true).map (fun p => p.2) =
      (ConvertCSVPure "in" "out" [["Name", "Hours"], ["Alice", "1.5"], ["Bob", "2.0"]] [1]
        true).map (fun p => p.2) ∧
    (ConvertCSVPure "in" "out" [["Name", "Hours"], ["Alice", "1.5"], ["Bob", "2.0"]] [1, 0]
        false).map (fun p => p.1.ColumnsFound) = some ["Hours", "Name"] := by
  have hmap : ∀ hd : List String, colMapOf cs1 hd = colMapOf cs2 hd :=
    fun hd => colMapOf_ext cs1 cs2 hd h
  refine ⟨by rw [hmap], ?_, by with_unfolding_all rfl, by with_unfolding_all rfl,
    by with_unfolding_all rfl⟩
  · unfold ConvertXLSXPure
    cases rows with
    | nil => rfl
    | cons r rs =>
      simp only [hmap]
      by_cases hh : findHeaderRow (r :: rs) = -1
      · rw [if_pos hh, if_pos hh]
      · rw [if_neg hh, if_neg hh]
        rfl

/-- Witness for C10 at `cs1 = [1, 1]`, `cs2 = [1]`. -/
theorem C10_duplicate_indices_witness :
    (ConvertCSVPure "in" "out" [["Name", "Hours"], ["Alice", "1.5"], ["Bob", "2.0"]] [1, 1]
        true).map (fun p => p.1.ColumnsFound) = some ["Hours", "Hours"] :=
  (C10_duplicate_indices [] [] [] [1, 1] [1] true "in" "out"
    (by intro x; simp)).2.2.1

/-- Spec-side predicate for C7: every sampled cell of column `i` present in
its row and non-empty after trimming passes the classifier. -/
def columnAllPass (rows : List (List String)) (i : ℕ) : Bool :=
  (rows.take RowDetectionLimit).all fun row =>
    match row[i]? with
    | none => true
    | some cell => decide (trimS cell = "") || IsDecimalHour (trimS cell)

/-- Spec-side predicate for C7: some sampled cell of column `i` is non-empty
after trimming. -/
def columnHasEvidence (rows : List (List String)) (i : ℕ) : Bool :=
  (rows.take RowDetectionLimit).any fun row =>
    match row[i]? with
    | none => false
    | some cell => !decide (trimS cell = "")

theorem scanColumn_fst (i : ℕ) : ∀ (l : List (List String)) (checked : ℕ),
    (scanColumn i checked l).1 =
      l.all fun row =>
        match row[i]? with
        | none => true
        | some cell => decide (trimS cell = "") || IsDecimalHour (trimS cell) := by
  intro l
  induction l with
  | nil => intro checked; rfl
  | cons row rest ih =>
    intro checked
    cases hg : row[i]? with
    | none => simp [scanColumn, hg, ih]
    | some cell =>
      by_cases hv : trimS cell = ""
      · simp [scanColumn, hg, hv, ih]
      · cases hd : IsDecimalHour (trimS cell) with
        | true => simp [scanColumn, hg, hv, hd, ih]
        | false => simp [scanColumn, hg, hv, hd]

theorem scanColumn_snd (i : ℕ) : ∀ (l : List (List String)) (checked : ℕ),
    (scanColumn i checked l).1 = true →
    (scanColumn i checked l).2 = checked + l.countP (fun row =>
      match row[i]? with
      | none => false
      | some cell => !decide (trimS cell = "")) := by
  intro l
  induction l with
  | nil => intro checked _; simp [scanColumn]
  | cons row rest ih =>
    intro checked hall
    cases hg : row[i]? with
    | none =>
      simp only [scanColumn, hg] at hall ⊢
      rw [ih checked hall, List.countP_cons]
      simp [hg]
    | some cell =>
      by_cases hv : trimS cell = ""
      · simp only [scanColumn, hg, hv, if_true, if_pos rfl] at hall ⊢
        rw [ih checked hall, List.countP_cons]
        simp [hg, hv]
      · cases hd : IsDecimalHour (trimS cell) with
        | false => simp [scanColumn, hg, hv, hd] at hall
        | true =>
          simp [scanColumn, hg, hv, hd, List.countP_cons] at hall ⊢
          rw [ih (checked + 1) hall]
          omega

/-- C7: `AutoDetectColumns` returns, in ascending order, exactly the column
indices below the header count whose sample (at most the first 10 data rows)
has every present, non-blank cell passing `IsDecimalHour` and at least one
non-blank cell; rows beyond the tenth are ignored; an all-blank sample is
never detected; one failing sampled cell rejects the column. -/
theorem C7_AutoDetectColumns_spec (data : FileData) :
    AutoDetectColumns data =
      (List.range data.Headers.length).filter
        (fun i => columnAllPass data.Rows i && columnHasEvidence data.Rows i) ∧
    AutoDetectColumns data =
      AutoDetectColumns ⟨data.Headers, data.Rows.take RowDetectionLimit⟩ ∧
    List.Sorted (· < ·) (AutoDetectColumns data) ∧
    (∀ i ∈ AutoDetectColumns data, i < data.Headers.length) ∧
    AutoDetectColumns ⟨["Name", "Hours"], [["Alice", "8.0"], ["Bob", "7.5"]]⟩ = [1] ∧
    AutoDetectColumns ⟨["Blank"], [[""], ["  "]]⟩ = [] ∧
    AutoDetectColumns ⟨["Bad10"],
      [["1"], ["2"], ["3"], ["4"], ["5"], ["6"], ["7"], ["8"], ["9"], ["x"]]⟩ = [] ∧
    AutoDetectColumns ⟨["Ok11"],
      [["1"], ["2"], ["3"], ["4"], ["5"], ["6"], ["7"], ["8"], ["9"], ["10"], ["x"]]⟩ = [0] := by
  refine ⟨?_, ?_, ?_, ?_, by with_unfolding_all rfl, by with_unfolding_all rfl,
    by with_unfolding_all rfl, by with_unfolding_all rfl⟩
  · unfold AutoDetectColumns
    apply List.filter_congr
    intro i _
    simp only [columnAllPass, columnHasEvidence]
    cases hall : (scanColumn i 0 (data.Rows.take RowDetectionLimit)).1 with
    | false =>
      rw [scanColumn_fst] at hall
      simp [hall]
    | true =>
      have h2 := scanColumn_snd i (data.Rows.take RowDetectionLimit) 0 hall
      rw [scanColumn_fst] at hall
      rw [hall, h2]
      simp only [Nat.zero_add, Bool.true_and]
      rw [Bool.eq_iff_iff]
      simp [List.countP_pos_iff, List.any_eq_true]
  · unfold AutoDetectColumns
    apply List.filter_congr
    intro i _
    simp [List.take_take]
  · exact (List.pairwise_lt_range _).filter _
  · intro i hi
    unfold AutoDetectColumns at hi
    exact List.mem_range.mp (List.mem_of_mem_filter hi)

/-- Header-candidate predicate of C8: at least two non-empty trimmed cells
and at least one alphabetic cell. -/
def isHeaderCandidate (row : List String) : Bool :=
  decide (2 ≤ rowNonEmptyCount row) && rowHasText row

theorem findHeaderRowAux_spec (l : List (List String)) :
    ∀ (i maxNE : ℕ) (hIdx : ℤ),
      (findHeaderRowAux l i maxNE hIdx = hIdx ∧
        ∀ (k : ℕ) (row : List String), l[k]? = some row →
          isHeaderCandidate row = true → rowNonEmptyCount row ≤ maxNE) ∨
      (∃ (k : ℕ) (row : List String), l[k]? = some row ∧
        findHeaderRowAux l i maxNE hIdx = ((i + k : ℕ) : ℤ) ∧
        isHeaderCandidate row = true ∧ maxNE < rowNonEmptyCount row ∧
        (∀ (j : ℕ) (row' : List String), l[j]? = some row' → isHeaderCandidate row' = true →
          rowNonEmptyCount row' ≤ rowNonEmptyCount row) ∧
        (∀ (j : ℕ) (row' : List String), j < k → l[j]? = some row' →
          isHeaderCandidate row' = true →
          rowNonEmptyCount row' < rowNonEmptyCount row)) := by
  induction l with
  | nil =>
    intro i maxNE hIdx
    left
    constructor
    · rfl
    · intro k row hk
      simp at hk
  | cons row rest ih =>
    intro i maxNE hIdx
    by_cases hc : 2 ≤ rowNonEmptyCount row ∧ rowHasText row = true ∧ maxNE < rowNonEmptyCount row
    · have hstep : findHeaderRowAux (row :: rest) i maxNE hIdx =
          findHeaderRowAux rest (i + 1) (rowNonEmptyCount row) (i : ℤ) := by
        simp only [findHeaderRowAux, if_pos hc]
      have hcand : isHeaderCandidate row = true := by
        simp [isHeaderCandidate, hc.1, hc.2.1]
      rcases ih (i + 1) (rowNonEmptyCount row) (i : ℤ) with ⟨heq, hbound⟩ |
        ⟨k, row', hk, heq, hcand', hlt, hmax, hfirst⟩
      · right
        refine ⟨0, row, by simp, ?_, hcand, hc.2.2, ?_, ?_⟩
        · rw [hstep, heq]; norm_num
        · intro j row'' hj hcand''
          cases j with
          | zero =>
            simp at hj
            subst hj
            exact le_refl _
          | succ j =>
            simp only [List.getElem?_cons_succ] at hj
            exact hbound j row'' hj hcand''
        · intro j row'' hj
          omega
      · right
        refine ⟨k + 1, row', by simpa using hk, ?_, hcand', ?_, ?_, ?_⟩
        · rw [hstep, heq]
          congr 1
          omega
        · exact lt_trans hc.2.2 hlt
        · intro j row'' hj hcand''
          cases j with
          | zero =>
            simp at hj
            subst hj
            exact le_of_lt hlt
          | succ j =>
            simp only [List.getElem?_cons_succ] at hj
            exact hmax j row'' hj hcand''
        · intro j row'' hjk hj hcand''
          cases j with
          | zero =>
            simp at hj
            subst hj
            exact hlt
          | succ j =>
            simp only [List.getElem?_cons_succ] at hj
            exact hfirst j row'' (by omega) hj hcand''
    · have hstep : findHeaderRowAux (row :: rest) i maxNE hIdx =
          findHeaderRowAux rest (i + 1) maxNE hIdx := by
        simp only [findHeaderRowAux, if_neg hc]
      have hrowle : isHeaderCandidate row = true → rowNonEmptyCount row ≤ maxNE := by
        intro hcand
        simp only [isHeaderCandidate, Bool.and_eq_true, decide_eq_true_eq] at hcand
        by_contra hgt
        exact hc ⟨hcand.1, hcand.2, by omega⟩
      rcases ih (i + 1) maxNE hIdx with ⟨heq, hbound⟩ |
        ⟨k, row', hk, heq, hcand', hlt, hmax, hfirst⟩
      · left
        refine ⟨by rw [hstep, heq], ?_⟩
        intro j row'' hj hcand''
        cases j with
        | zero =>
          simp at hj
          subst hj
          exact hrowle hcand''
        | succ j =>
          simp only [List.getElem?_cons_succ] at hj
          exact hbound j row'' hj hcand''
      · right
        refine ⟨k + 1, row', by simpa using hk, ?_, hcand', hlt, ?_, ?_⟩
        · rw [hstep, heq]
          congr 1
          omega
        · intro j row'' hj hcand''
          cases j with
          | zero =>
            simp at hj
            subst hj
            exact le_trans (hrowle hcand'') (le_of_lt hlt)
          | succ j =>
            simp only [List.getElem?_cons_succ] at hj
            exact hmax j row'' hj hcand''
        · intro j row'' hjk hj hcand''
          cases j with
          | zero =>
            simp at hj
            subst hj
            exact lt_of_le_of_lt (hrowle hcand'') hlt
          | succ j =>
            simp only [List.getElem?_cons_succ] at hj
            exact hfirst j row'' (by omega) hj hcand''

/-- C8: `findHeaderRow` searches only the first 20 rows; it returns `-1`
exactly when no searched row is a candidate (≥ 2 non-empty trimmed cells and
an alphabetic cell); otherwise it returns the index of the first candidate
row whose non-empty cell count is maximal among the searched candidates
(every earlier candidate has a strictly smaller count, so first-found wins
ties). -/
theorem C8_findHeaderRow_spec (rows : List (List String)) :
    findHeaderRow rows = findHeaderRow (rows.take (RowDetectionLimit * 2)) ∧
    ((findHeaderRow rows = -1 ∧
      ∀ (k : ℕ) (row : List String), (rows.take (RowDetectionLimit * 2))[k]? = some row →
        isHeaderCandidate row = false) ∨
     (∃ (k : ℕ) (row : List String), (rows.take (RowDetectionLimit * 2))[k]? = some row ∧
        findHeaderRow rows = (k : ℤ) ∧
        isHeaderCandidate row = true ∧
        (∀ (j : ℕ) (row' : List String), (rows.take (RowDetectionLimit * 2))[j]? = some row' →
          isHeaderCandidate row' = true →
          rowNonEmptyCount row' ≤ rowNonEmptyCount row) ∧
        (∀ (j : ℕ) (row' : List String), j < k →
          (rows.take (RowDetectionLimit * 2))[j]? = some row' →
          isHeaderCandidate row' = true →
          rowNonEmptyCount row' < rowNonEmptyCount row))) ∧
    findHeaderRow [["123"], ["Name", "Hours"]] = 1 ∧
    findHeaderRow [["123", "456"]] = -1 := by
  refine ⟨?_, ?_, by with_unfolding_all rfl, by with_unfolding_all rfl⟩
  · unfold findHeaderRow
    rw [List.take_take]
    simp
  · rcases findHeaderRowAux_spec (rows.take (RowDetectionLimit * 2)) 0 0 (-1) with
      ⟨heq, hbound⟩ | ⟨k, row, hk, heq, hcand, _, hmax, hfirst⟩
    · left
      refine ⟨heq, ?_⟩
      intro k row hk
      by_contra hne
      have hcand : isHeaderCandidate row = true := by
        cases hcval : isHeaderCandidate row
        · exact absurd hcval hne
        · rfl
      have h2 := hbound k row hk hcand
      simp only [isHeaderCandidate, Bool.and_eq_true, decide_eq_true_eq] at hcand
      omega
    · right
      exact ⟨k, row, hk, by simpa using heq, hcand, hmax, hfirst⟩

/-- C5 counterexample: with input `[["H"], ["1.5"]]`, column 0, replace mode,
an I/O failure during the write after 1 record leaves a partial output file
(`[["H"]]`) at the output path — the conversion fails but does not leave the
file system without an output file, refuting "fully fails before any output
file is written" for mid-write failures. -/
theorem C5_counterexample :
    ConvertCSVTrace "in" "out" (some [["H"], ["1.5"]]) [0] false (some 1) =
      (none, FsOutcome.partialFile [["H"]]) ∧
    FsOutcome.partialFile [["H"]] ≠ FsOutcome.noFile := by
  constructor
  · with_unfolding_all rfl
  · intro h
    cases h

/-- C5 (amended): all pre-write failures — read error, empty input,
unsupported extension, missing XLSX header row — occur before any output
file is created; the transformed table is fully constructed in memory before
the write begins, and a successful conversion writes exactly that table; but
an I/O failure during the write itself leaves a partial output file holding
a prefix of the intended output, since the engine creates and writes the
final path directly. -/
theorem C5_write_discipline (inputFile outputFile : String)
    (input : Option (List (List String))) (columnIndices : List ℤ)
    (keepOriginal : Bool) (writeFailAfter : Option ℕ) :
    (input = none →
      ConvertCSVTrace inputFile outputFile input columnIndices keepOriginal writeFailAfter =
        (none, FsOutcome.noFile)) ∧
    (input = some [] →
      ConvertCSVTrace inputFile outputFile input columnIndices keepOriginal writeFailAfter =
        (none, FsOutcome.noFile)) ∧
    (∀ headers rest, input = some (headers :: rest) →
      ∃ result,
        ConvertCSVPure inputFile outputFile (headers :: rest) columnIndices keepOriginal =
          some (result,
            convertRecords (headers :: rest) (colMapOf columnIndices headers) keepOriginal) ∧
        (writeFailAfter = none →
          ConvertCSVTrace inputFile outputFile input columnIndices keepOriginal writeFailAfter =
            (some result, FsOutcome.fullFile
              (convertRecords (headers :: rest) (colMapOf columnIndices headers)
                keepOriginal))) ∧
        (∀ k, writeFailAfter = some k →
          k < (convertRecords (headers :: rest) (colMapOf columnIndices headers)
            keepOriginal).length →
          ConvertCSVTrace inputFile outputFile input columnIndices keepOriginal writeFailAfter =
            (none, FsOutcome.partialFile
              ((convertRecords (headers :: rest) (colMapOf columnIndices headers)
                keepOriginal).take k))) ∧
        (∀ k, writeFailAfter = some k →
          ¬ k < (convertRecords (headers :: rest) (colMapOf columnIndices headers)
            keepOriginal).length →
          ConvertCSVTrace inputFile outputFile input columnIndices keepOriginal writeFailAfter =
            (some result, FsOutcome.fullFile
              (convertRecords (headers :: rest) (colMapOf columnIndices headers)
                keepOriginal)))) ∧
    (∀ ext readOk, (ReadFileDataTrace ext readOk).2 = FsOutcome.noFile) ∧
    (∀ ext readOk, ¬ (ext = ".csv" || ext = ".xlsx") = true →
      ReadFileDataTrace ext readOk = (none, FsOutcome.noFile)) ∧
    (∀ rows cIdx inF outF keep, rows = [] ∨ findHeaderRow rows = -1 →
      ConvertXLSXPure inF outF rows cIdx keep = none) := by
  refine ⟨?_, ?_, ?_, ?_, ?_, ?_⟩
  · rintro rfl; rfl
  · rintro rfl; rfl
  · rintro headers rest rfl
    refine ⟨_, ConvertCSVPure_cons inputFile outputFile headers rest columnIndices keepOriginal,
      ?_, ?_, ?_⟩
    · rintro rfl
      simp [ConvertCSVTrace, ConvertCSVPure_cons]
    · rintro k rfl hk
      simp [ConvertCSVTrace, ConvertCSVPure_cons, hk]
    · rintro k rfl hk
      simp [ConvertCSVTrace, ConvertCSVPure_cons, hk]
  · intro ext readOk
    unfold ReadFileDataTrace
    split <;> rfl
  · intro ext readOk hext
    unfold ReadFileDataTrace
    rw [if_neg hext]
  · rintro rows cIdx inF outF keep (rfl | hh)
    · rfl
    · cases rows with
      | nil => rfl
      | cons r rs => simp [ConvertXLSXPure, hh]

theorem convertRecords_length (headers : List String) (rest : List (List String))
    (colMap : ℕ → Bool) (keep : Bool) :
    (convertRecords (headers :: rest) colMap keep).length = rest.length + 1 := by
  cases keep
  · rw [convertRecords_replace]; simp
  · rw [convertRecords_keep]; simp

theorem foldl_product {α : Type} (f : α → ℕ × ℕ → α) (cols : List ℕ) :
    ∀ (rws : List ℕ) (init : α),
      rws.foldl (fun acc r => cols.foldl (fun a c => f a (r, c)) acc) init =
        (rws.product cols).foldl f init := by
  intro rws
  induction rws with
  | nil => intro init; rfl
  | cons r rest ih =>
    intro init
    have hprod : List.product (r :: rest) cols =
        (cols.map fun c => (r, c)) ++ List.product rest cols := by
      simp [List.product]
    rw [List.foldl_cons, ih, hprod, List.foldl_append, List.foldl_map]

theorem setCell_ne (g : Grid) (r0 c0 : ℕ) (v : String) (r c : ℕ)
    (h : ¬(r = r0 ∧ c = c0)) : setCell g r0 c0 v r c = g r c := by
  unfold setCell
  rw [if_neg h]

theorem insertCol_lt (g : Grid) (p r c : ℕ) (h : c < p) : insertCol g p r c = g r c := by
  unfold insertCol
  rw [if_pos h]

theorem replace_pairs_count (g0 : Grid) :
    ∀ (ps : List (ℕ × ℕ)) (g : Grid) (n : ℕ),
      (∀ p ∈ ps, g p.1 (p.2 + 1) = g0 p.1 (p.2 + 1)) →
      ps.Nodup →
      (ps.foldl xlsxReplaceStep (g, n)).2 = n + ps.countP (xlsxCellSuccess g0) := by
  intro ps
  induction ps with
  | nil => intro g n _ _; simp
  | cons p rest ih =>
    intro g n hagree hnodup
    have hp : g p.1 (p.2 + 1) = g0 p.1 (p.2 + 1) := hagree p (List.mem_cons_self p rest)
    have hnotin : p ∉ rest := (List.nodup_cons.mp hnodup).1
    have hrest : rest.Nodup := (List.nodup_cons.mp hnodup).2
    rw [List.foldl_cons, List.countP_cons]
    by_cases h1 : g0 p.1 (p.2 + 1) = ""
    · have hstep : xlsxReplaceStep (g, n) p = (g, n) := by
        simp [xlsxReplaceStep, hp, h1]
      have hsucc : xlsxCellSuccess g0 p = false := by
        simp [xlsxCellSuccess, h1]
      rw [hstep, ih g n (fun q hq => hagree q (List.mem_cons_of_mem p hq)) hrest, hsucc]
      simp
    · cases hparse : parseFloat (trimS (g0 p.1 (p.2 + 1))) with
      | none =>
        have hstep : xlsxReplaceStep (g, n) p = (g, n) := by
          simp [xlsxReplaceStep, hp, h1, hparse]
        have hsucc : xlsxCellSuccess g0 p = false := by
          simp [xlsxCellSuccess, h1, hparse]
        rw [hstep, ih g n (fun q hq => hagree q (List.mem_cons_of_mem p hq)) hrest, hsucc]
        simp
      | some d =>
        have hstep : xlsxReplaceStep (g, n) p =
            (setCell g p.1 (p.2 + 1) (DecimalToTime d), n + 1) := by
          simp [xlsxReplaceStep, hp, h1, hparse]
        have hagree' : ∀ q ∈ rest,
            setCell g p.1 (p.2 + 1) (DecimalToTime d) q.1 (q.2 + 1) = g0 q.1 (q.2 + 1) := by
          intro q hq
          have hne : ¬(q.1 = p.1 ∧ q.2 + 1 = p.2 + 1) := by
            rintro ⟨ha, hb⟩
            have hqp : q = p := Prod.ext ha (by omega)
            exact hnotin (hqp ▸ hq)
          rw [setCell_ne _ _ _ _ _ _ hne]
          exact hagree q (List.mem_cons_of_mem p hq)
        have hsucc : xlsxCellSuccess g0 p = true := by
          simp [xlsxCellSuccess, h1, hparse]
        rw [hstep, ih _ (n + 1) hagree' hrest, hsucc]
        simp
        omega

theorem xlsxReplaceBranch_count (g0 : Grid) (rowIdxs cols : List ℕ)
    (hr : rowIdxs.Nodup) (hc : cols.Nodup) :
    (xlsxReplaceBranch g0 rowIdxs cols).2 = xlsxSuccessCount g0 rowIdxs cols := by
  unfold xlsxReplaceBranch xlsxSuccessCount
  rw [foldl_product]
  have hnd : (rowIdxs.product cols).Nodup := hr.product hc
  rw [replace_pairs_count g0 _ g0 0 (fun p _ => rfl) hnd]
  simp

theorem insert_inner_count (colIdx : ℕ) (g0 : Grid) :
    ∀ (rws : List ℕ) (g : Grid) (n : ℕ),
      (∀ r ∈ rws, g r (colIdx + 1) = g0 r (colIdx + 1)) →
      (rws.foldl (xlsxInsertCellStep colIdx) (g, n)).2 =
        n + rws.countP fun r => xlsxCellSuccess g0 (r, colIdx) := by
  intro rws
  induction rws with
  | nil => intro g n _; simp
  | cons r rest ih =>
    intro g n hagree
    have hr : g r (colIdx + 1) = g0 r (colIdx + 1) := hagree r (List.mem_cons_self r rest)
    rw [List.foldl_cons, List.countP_cons]
    by_cases h1 : g0 r (colIdx + 1) = ""
    · have hstep : xlsxInsertCellStep colIdx (g, n) r = (g, n) := by
        simp [xlsxInsertCellStep, hr, h1]
      have hsucc : xlsxCellSuccess g0 (r, colIdx) = false := by
        simp [xlsxCellSuccess, h1]
      rw [hstep, ih g n (fun q hq => hagree q (List.mem_cons_of_mem r hq)), hsucc]
      simp
    · cases hparse : parseFloat (trimS (g0 r (colIdx + 1))) with
      | none =>
        have hstep : xlsxInsertCellStep colIdx (g, n) r = (g, n) := by
          simp [xlsxInsertCellStep, hr, h1, hparse]
        have hsucc : xlsxCellSuccess g0 (r, colIdx) = false := by
          simp [xlsxCellSuccess, h1, hparse]
        rw [hstep, ih g n (fun q hq => hagree q (List.mem_cons_of_mem r hq)), hsucc]
        simp
      | some d =>
        have hstep : xlsxInsertCellStep colIdx (g, n) r =
            (setCell g r (colIdx + 2) (DecimalToTime d), n + 1) := by
          simp [xlsxInsertCellStep, hr, h1, hparse]
        have hagree' : ∀ q ∈ rest,
            setCell g r (colIdx + 2) (DecimalToTime d) q (colIdx + 1) = g0 q (colIdx + 1) := by
          intro q hq
          rw [setCell_ne _ _ _ _ _ _ (by rintro ⟨_, hb⟩; omega)]
          exact hagree q (List.mem_cons_of_mem r hq)
        have hsucc : xlsxCellSuccess g0 (r, colIdx) = true := by
          simp [xlsxCellSuccess, h1, hparse]
        rw [hstep, ih _ (n + 1) hagree', hsucc]
        simp
        omega

theorem insertCellStep_preserves (colIdx : ℕ) (a : Grid × ℕ) (q r c : ℕ)
    (hc : c ≠ colIdx + 2) :
    (xlsxInsertCellStep colIdx a q).1 r c = a.1 r c := by
  unfold xlsxInsertCellStep
  split
  · split
    · show setCell a.1 q (colIdx + 2) _ r c = a.1 r c
      rw [setCell_ne _ _ _ _ _ _ (by rintro ⟨_, hb⟩; omega)]
    · rfl
  · rfl

theorem insert_inner_preserves (colIdx : ℕ) :
    ∀ (rws : List ℕ) (a : Grid × ℕ) (r c : ℕ), c ≠ colIdx + 2 →
      ((rws.foldl (xlsxInsertCellStep colIdx) a).1) r c = a.1 r c := by
  intro rws
  induction rws with
  | nil => intro a r c _; rfl
  | cons q rest ih =>
    intro a r c hc
    rw [List.foldl_cons, ih _ r c hc, insertCellStep_preserves colIdx a q r c hc]

theorem insertColStep_preserves (hdrIdx : ℕ) (headers : List String) (rowIdxs : List ℕ)
    (hp : Grid × ℕ) (colIdx : ℕ) (r c : ℕ) (hc : c < colIdx + 2) :
    (xlsxInsertColStep hdrIdx headers rowIdxs hp colIdx).1 r c = hp.1 r c := by
  unfold xlsxInsertColStep
  rw [insert_inner_preserves colIdx rowIdxs _ r c (by omega)]
  show setCell (insertCol hp.1 (colIdx + 2)) (hdrIdx + 1) (colIdx + 2) _ r c = hp.1 r c
  rw [setCell_ne _ _ _ _ _ _ (by rintro ⟨_, hb⟩; omega)]
  exact insertCol_lt _ _ _ _ hc

theorem insertColStep_count (hdrIdx : ℕ) (headers : List String) (rowIdxs : List ℕ)
    (g0 : Grid) (hp : Grid × ℕ) (colIdx : ℕ)
    (hagree : ∀ r, hp.1 r (colIdx + 1) = g0 r (colIdx + 1)) :
    (xlsxInsertColStep hdrIdx headers rowIdxs hp colIdx).2 =
      hp.2 + rowIdxs.countP fun r => xlsxCellSuccess g0 (r, colIdx) := by
  unfold xlsxInsertColStep
  rw [insert_inner_count colIdx g0 rowIdxs _ hp.2 ?hag]
  case hag =>
    intro r _
    show setCell (insertCol hp.1 (colIdx + 2)) (hdrIdx + 1) (colIdx + 2) _ r (colIdx + 1) =
      g0 r (colIdx + 1)
    rw [setCell_ne _ _ _ _ _ _ (by rintro ⟨_, hb⟩; omega)]
    rw [insertCol_lt _ _ _ _ (by omega)]
    exact hagree r

theorem insert_outer_count (hdrIdx : ℕ) (headers : List String) (rowIdxs : List ℕ)
    (g0 : Grid) :
    ∀ (colsDesc : List ℕ) (g : Grid) (n : ℕ),
      (∀ r c colIdx, colIdx ∈ colsDesc → c ≤ colIdx + 1 → g r c = g0 r c) →
      colsDesc.Pairwise (· > ·) →
      (colsDesc.foldl (xlsxInsertColStep hdrIdx headers rowIdxs) (g, n)).2 =
        n + (colsDesc.map fun colIdx =>
          rowIdxs.countP fun r => xlsxCellSuccess g0 (r, colIdx)).sum := by
  intro colsDesc
  induction colsDesc with
  | nil => intro g n _ _; simp
  | cons colIdx rest ih =>
    intro g n hagree hpair
    rw [List.foldl_cons, List.map_cons, List.sum_cons]
    have hgt : ∀ x ∈ rest, x < colIdx := fun x hx => (List.pairwise_cons.mp hpair).1 x hx
    have hrp : rest.Pairwise (· > ·) := (List.pairwise_cons.mp hpair).2
    have hcount := insertColStep_count hdrIdx headers rowIdxs g0 (g, n) colIdx
      (fun r => hagree r (colIdx + 1) colIdx (List.mem_cons_self _ _) (le_refl _))
    have hagree' : ∀ r c colIdx', colIdx' ∈ rest → c ≤ colIdx' + 1 →
        (xlsxInsertColStep hdrIdx headers rowIdxs (g, n) colIdx).1 r c = g0 r c := by
      intro r c colIdx' hmem hcle
      have hlt : colIdx' < colIdx := hgt colIdx' hmem
      rw [insertColStep_preserves hdrIdx headers rowIdxs (g, n) colIdx r c (by omega)]
      exact hagree r c colIdx' (List.mem_cons_of_mem _ hmem) hcle
    have hrec := ih (xlsxInsertColStep hdrIdx headers rowIdxs (g, n) colIdx).1
      (xlsxInsertColStep hdrIdx headers rowIdxs (g, n) colIdx).2 hagree' hrp
    rw [Prod.mk.eta] at hrec
    rw [hrec, hcount]
    omega

theorem sum_map_add_distrib (f g : ℕ → ℕ) : ∀ l : List ℕ,
    (l.map fun c => f c + g c).sum = (l.map f).sum + (l.map g).sum := by
  intro l
  induction l with
  | nil => rfl
  | cons c cs ih =>
    simp [ih]
    omega

theorem countP_eq_sum_map (q : ℕ → Bool) : ∀ l : List ℕ,
    l.countP q = (l.map fun a => if q a then 1 else 0).sum := by
  intro l
  induction l with
  | nil => rfl
  | cons a l ih =>
    rw [List.countP_cons, List.map_cons, List.sum_cons, ih]
    omega

theorem product_countP (p : ℕ × ℕ → Bool) : ∀ (rws cols : List ℕ),
    (rws.product cols).countP p =
      (cols.map fun c => rws.countP fun r => p (r, c)).sum := by
  intro rws
  induction rws with
  | nil =>
    intro cols
    have hnil : List.product ([] : List ℕ) cols = [] := by simp [List.product]
    rw [hnil]
    simp
  | cons r rest ih =>
    intro cols
    have hprod : List.product (r :: rest) cols =
        (cols.map fun c => (r, c)) ++ List.product rest cols := by
      simp [List.product]
    rw [hprod, List.countP_append, List.countP_map, ih]
    have hcongr : (cols.map fun c => (r :: rest).countP fun r' => p (r', c)) =
        cols.map fun c => (rest.countP fun r' => p (r', c)) + (if p (r, c) then 1 else 0) := by
      apply List.map_congr_left
      intro c _
      rw [List.countP_cons]
    rw [hcongr, sum_map_add_distrib, ← countP_eq_sum_map (fun c => p (r, c)) cols]
    have hcomp : (List.countP (p ∘ fun c => (r, c)) cols) =
        List.countP (fun c => p (r, c)) cols := rfl
    rw [hcomp]
    omega

theorem xlsxInsertBranch_count (g0 : Grid) (hdrIdx : ℕ) (headers : List String)
    (rowIdxs colsAsc : List ℕ) (hasc : colsAsc.Pairwise (· < ·)) :
    (xlsxInsertBranch g0 hdrIdx headers rowIdxs colsAsc.reverse).2 =
      xlsxSuccessCount g0 rowIdxs colsAsc := by
  unfold xlsxInsertBranch xlsxSuccessCount
  rw [insert_outer_count hdrIdx headers rowIdxs g0 colsAsc.reverse g0 0
    (fun r c colIdx _ _ => rfl) (by rw [List.pairwise_reverse]; exact hasc)]
  rw [List.map_reverse, List.sum_reverse, product_countP]
  simp

/-- C1 counterexample: on the CSV table `[["H"], ["x"]]` with column 0
selected in replace-in-place mode, no cell converts (`"x"` does not parse
and the output records equal the input), yet `RowsProcessed` is 1 — the data
row count — so in this mode `RowsProcessed` is not the number of
successfully converted cells. -/
theorem C1_counterexample :
    (ConvertCSVPure "in" "out" [["H"], ["x"]] [0] false).map
      (fun p => p.1.RowsProcessed) = some 1 ∧
    (ConvertCSVPure "in" "out" [["H"], ["x"]] [0] false).map
      (fun p => p.2) = some [["H"], ["x"]] ∧
    parseFloat (trimS "x") = none := by
  refine ⟨?_, ?_, ?_⟩ <;> with_unfolding_all rfl

/-- C1 (amended): `RowsProcessed` counts processed data rows for CSV
conversions under both strategies (`len(records) - 1`), and counts
successfully converted cells — measured against the original sheet
contents — for XLSX conversions under both strategies. -/
theorem C1_rows_processed (inputFile outputFile : String) (headers : List String)
    (dataRows rows : List (List String)) (columnIndices : List ℤ) (keepOriginal : Bool) :
    (ConvertCSVPure inputFile outputFile (headers :: dataRows) columnIndices
        keepOriginal).map (fun p => p.1.RowsProcessed) = some dataRows.length ∧
    (∀ result grid,
      ConvertXLSXPure inputFile outputFile rows columnIndices keepOriginal =
        some (result, grid) →
      result.RowsProcessed =
        xlsxSuccessCount (gridOfRows rows)
          (List.range' ((findHeaderRow rows).toNat + 2)
            (rows.length - ((findHeaderRow rows).toNat + 1)))
          ((List.range (rows.getD (findHeaderRow rows).toNat []).length).filter
            (colMapOf columnIndices (rows.getD (findHeaderRow rows).toNat [])))) := by
  constructor
  · rw [ConvertCSVPure_cons]
    simp [convertRecords_length]
  · intro result grid hEq
    unfold ConvertXLSXPure at hEq
    cases rows with
    | nil => cases hEq
    | cons r rs =>
      by_cases hh : findHeaderRow (r :: rs) = -1
      · rw [if_pos hh] at hEq
        cases hEq
      · rw [if_neg hh] at hEq
        have hrownd : (List.range' ((findHeaderRow (r :: rs)).toNat + 2)
            ((r :: rs).length - ((findHeaderRow (r :: rs)).toNat + 1))).Nodup :=
          List.nodup_range' _ _ _ (by omega)
        have hcolnd : ((List.range
              ((r :: rs).getD (findHeaderRow (r :: rs)).toNat []).length).filter
            (colMapOf columnIndices ((r :: rs).getD (findHeaderRow (r :: rs)).toNat []))).Nodup :=
          (List.nodup_range _).filter _
        have hcolasc : ((List.range
              ((r :: rs).getD (findHeaderRow (r :: rs)).toNat []).length).filter
            (colMapOf columnIndices
              ((r :: rs).getD (findHeaderRow (r :: rs)).toNat []))).Pairwise (· < ·) :=
          (List.pairwise_lt_range _).filter _
        cases keepOriginal with
        | false =>
          simp only [Bool.false_eq_true, if_false] at hEq
          injection hEq with h1
          simp only [Prod.mk.injEq] at h1
          rw [← h1.1]
          exact xlsxReplaceBranch_count _ _ _ hrownd hcolnd
        | true =>
          simp only [if_true] at hEq
          injection hEq with h1
          simp only [Prod.mk.injEq] at h1
          rw [← h1.1]
          exact xlsxInsertBranch_count _ _ _ _ _ hcolasc

end Chronos
